import Mathlib

/-!
Verification of the grubby Ruby interpreter core (`interpreter/vm/vm.go`).

The evaluator `executeWithContext`, the `Run` entry point and the `require`
builtin installed in `NewVM` are embedded as fuel-indexed Lean functions over
an explicit `VMState`.  Go's `defer`red stack pops, which run when the
enclosing *function invocation* returns (not when the enclosing `case` block
ends), are modelled by an explicit count of pending pops that the wrapper
`executeWithContext` applies on return.  Components of the repository that
live outside `vm.go` (the builtins' value/method tables, `CallStack`,
`localVariableStack`, error display strings) are modelled from the spec and
marked as such.

Node kinds of the evaluator that no claim touches (`Alias`,
`InterpolatedString`, `ConstantFloat`, `FileNameConstReference`, `Array`,
`Hash`, instance-variable assignment targets) are omitted from the embedded
AST; every kind that is present is translated case-by-case from the source.
-/

namespace Grubby

/-- Lookup in an association list; models a Go map read with the `ok` flag. -/
def alFind {κ α : Type} [DecidableEq κ] : List (κ × α) → κ → Option α
  | [], _ => none
  | (k', v) :: rest, k => if k = k' then some v else alFind rest k

/-- Overwriting insert in an association list; models Go map assignment. -/
def alSet {κ α : Type} [DecidableEq κ] : List (κ × α) → κ → α → List (κ × α)
  | [], k, v => [(k, v)]
  | (k', v') :: rest, k, v =>
    if k = k' then (k, v) :: rest else (k', v') :: alSet rest k v

/-- Syntax-tree nodes (`ast` package), restricted to the kinds the claims
about the evaluator exercise.  `beginBlock`'s second argument lists the
rescue clauses: each is the declared exception-class names paired with the
recovery body (`ast.Rescue` with `r.Exception.Classes` and `r.Body`). -/
inductive Node where
  | ifBlock (condition : Node) (body : List Node) (elseBody : List Node)
  | boolean (value : Bool)
  | bareReference (name : String)
  | globalVariable (name : String)
  | constantInt (value : Int)
  | symbol (name : String)
  | simpleString (value : String)
  | callExpression (target : Option Node) (funcName : String) (args : List Node)
  | assignment (lhs : Node) (rhs : Node)
  | moduleDecl (name : String) (body : List Node)
  | classDecl (name : String) (body : List Node)
  | funcDecl (name : String) (argNames : List String) (selfTarget : Bool)
      (body : List Node)
  | beginBlock (body : List Node) (rescues : List (List String × List Node))

/-- Enumeration of the native (host-provided) method bodies the embedding
needs: `main.to_s` and `main.require` from `NewVM`. -/
inductive NativeImpl where
  | mainToS
  | requireFn
  deriving DecidableEq, Repr

/-- A method: native, or user-defined with formal parameter names and a body
(`NewRubyMethod` in the `FuncDecl` case). -/
inductive RMethod where
  | native (impl : NativeImpl) (name : String)
  | user (name : String) (argNames : List String) (body : List Node)

/-- `method.Name()`. -/
def RMethod.nameOf : RMethod → String
  | .native _ n => n
  | .user n _ _ => n

/-- Runtime values.  Go compares values by pointer identity; heap-allocated
instances therefore carry an allocation id drawn from the VM's counter, so
that two separately allocated instances are distinct values.  Classes and
modules are referenced by registry name. -/
inductive RValue where
  | obj (className : String) (id : Nat)
  | strv (s : String)
  | fixnum (n : Int)
  | symv (name : String) (id : Nat)
  | classv (name : String)
  | modulev (name : String)
  | methodv (m : RMethod)

/-- Go compares interface values with `==`, which for grubby's
pointer-backed values is pointer identity (`context ==
vm.ObjectSpace["main"]` in the `FuncDecl` case).  Heap identity is the
allocation id for instances and symbols, the registry name for classes and
modules; two separately allocated strings, fixnums or method objects are
never `==` even when structurally equal. -/
def identEq : RValue → RValue → Bool
  | .obj _ i, .obj _ j => i == j
  | .symv _ i, .symv _ j => i == j
  | .classv a, .classv b => a == b
  | .modulev a, .modulev b => a == b
  | _, _ => false

/-- Modelled from the spec: every value can "obtain its class"; this is the
name of that class (missing builtins' `Class()` methods). -/
def classNameOf : RValue → String
  | .obj c _ => c
  | .strv _ => "String"
  | .fixnum _ => "Fixnum"
  | .symv _ _ => "Symbol"
  | .classv _ => "Class"
  | .modulev _ => "Module"
  | .methodv _ => "Method"

/-- Modelled from the spec: every value can "render a display string"
(the builtins' `String()` methods are outside `src/`). -/
def displayString : RValue → String
  | .obj c i => "#<" ++ c ++ ":" ++ toString i ++ ">"
  | .strv s => s
  | .fixnum n => toString n
  | .symv n _ => ":" ++ n
  | .classv n => n
  | .modulev n => n
  | .methodv m => "#<Method " ++ m.nameOf ++ ">"

/-- Error values.  Each constructor carries exactly the fields its `vm.go`
construction site passes: `NewNameError(name, context.String(),
context.Class().String(), vm.stack.String())`, `NewNoMethodError(name,
target.String(), target.Class().String(), vm.stack.String())`,
`NewLoadError(message, vm.stack.String())`, `NewParseError(filename)`. -/
inductive RubyError where
  | nameError (name : String) (contextDisplay : String) (contextClass : String)
      (backtrace : String)
  | noMethodError (methodName : String) (targetDisplay : String)
      (targetClass : String) (backtrace : String)
  | loadError (message : String) (backtrace : String)
  | parseError (filename : String)
  deriving DecidableEq, Repr

/-- Modelled from the spec: the display string of a raised error value
(`rubyErr.String()` in the rescue-matching loop; the concrete formats live in
the builtins, outside `src/`).  Each kind renders a human-readable message
that mentions the offending name. -/
def errString : RubyError → String
  | .nameError n _ _ _ => "NameError: undefined local variable or method " ++ n
  | .noMethodError m _ _ _ => "NoMethodError: undefined method " ++ m
  | .loadError msg _ => msg
  | .parseError _ => "parse error"

/-- A call-stack frame: method/context name plus the filename active when it
was pushed (`CallStack` entries; the type lives outside `src/`, modelled
from the spec). -/
structure Frame where
  name : String
  filename : String
  deriving DecidableEq, Repr

/-- Modelled from the spec: the call stack's string rendering, ordered
most-recent-first (`vm.stack.String()`). -/
def stackString : List Frame → String
  | [] => ""
  | f :: rest => f.name ++ " in " ++ f.filename ++ "\n" ++ stackString rest

/-- One local-variable scope: name to (possibly Go-nil) value. -/
abbrev Scope := List (String × Option RValue)

/-- A class registry entry (`Class` values; structure modelled from the spec
since the builtins are outside `src/`): superclass, included modules in
inclusion order, instance-method table. -/
structure RClass where
  name : String
  superName : Option String
  includedModules : List String
  instanceMethods : List (String × RMethod)

/-- A module registry entry: instance methods, private methods (the Kernel
module receives top-level function declarations as private methods), and
module-function ("self-qualified") methods. -/
structure RModule where
  name : String
  instanceMethods : List (String × RMethod)
  privateMethods : List (String × RMethod)
  moduleMethods : List (String × RMethod)

/-- The `vm` struct.  Go maps become association lists whose values may be
the Go-`nil` `Value` (hence `Option RValue` where `nil` is storable).
`ownMethods` models the builtins' per-value method tables (`AddMethod`),
keyed by allocation id.  `loadPathMembers` models the contents of the
`LOAD_PATH` array captured by the `require` closure.  `nextId` is the
allocation counter giving heap identities. -/
structure VMState where
  currentFilename : String
  stack : List Frame
  ObjectSpace : List (String × Option RValue)
  CurrentGlobals : List (String × Option RValue)
  CurrentSymbols : List (String × RValue)
  CurrentClasses : List (String × RClass)
  CurrentModules : List (String × RModule)
  localVariableStack : List Scope
  ownMethods : List (Nat × List (String × RMethod))
  loadPathMembers : List RValue
  nextId : Nat

/-- Modelled from the spec: `localVariableStack.retrieve` consults only the
topmost scope ("Lookup only ever consults the current (topmost) scope");
`none` models its error return. -/
def retrieveL : List Scope → String → Option (Option RValue)
  | [], _ => none
  | top :: _, name => alFind top name

/-- Modelled from the spec: `localVariableStack.store` binds into the
topmost scope. -/
def storeL (name : String) (v : Option RValue) : List Scope → List Scope
  | [] => []
  | top :: rest => alSet top name v :: rest

/-- Modelled from the spec: `RubyMethod.Execute` binds the ordered actual
arguments to the formal parameter names positionally before the method
body's closure stores them into the fresh scope. -/
def bindArgs : List String → List (Option RValue) → List Scope → List Scope
  | [], _, ls => ls
  | _, [], ls => ls
  | n :: ns, v :: vs, ls => bindArgs ns vs (storeL n v ls)

/-- The result of one evaluator invocation: Go's `(Value, error)` pair
(either component may be `nil`) plus the threaded VM state. -/
structure EvalOut where
  rv : Option RValue
  re : Option RubyError
  st : VMState

/-- The type of the evaluator: `executeWithContext(context, statements...)`. -/
abbrev Exec := RValue → List Node → VMState → Option EvalOut

/-- The type of `method.Execute(target, args...)`. -/
abbrev MExec := RMethod → RValue → List (Option RValue) → VMState → Option EvalOut

/-! ## Method resolution (modelled from the spec, §4.2)

`target.Method(name)` and `target.PrivateMethod(name)` live in the builtins,
outside `src/`.  The spec gives the search order: the value's own method
table, then the method table of the value's class, then the instance-method
tables of the class's included modules in reverse inclusion order, then the
same up the superclass chain. -/

/-- First module in the given (already reversed) list that defines the
instance method. -/
def moduleInstanceMethod (st : VMState) : List String → String → Option RMethod
  | [], _ => none
  | n :: rest, mname =>
    match alFind st.CurrentModules n with
    | none => moduleInstanceMethod st rest mname
    | some md =>
      match alFind md.instanceMethods mname with
      | some m => some m
      | none => moduleInstanceMethod st rest mname

/-- Like `moduleInstanceMethod` but searching the modules' private-method
tables (the path by which top-level functions in Kernel become callable). -/
def modulePrivateMethod (st : VMState) : List String → String → Option RMethod
  | [], _ => none
  | n :: rest, mname =>
    match alFind st.CurrentModules n with
    | none => modulePrivateMethod st rest mname
    | some md =>
      match alFind md.privateMethods mname with
      | some m => some m
      | none => modulePrivateMethod st rest mname

/-- Public resolution along the class chain: class's own table, then
included modules most-recently-included first, then the superclass.  The
chain of the bootstrap graph is finite; `fuel` bounds it. -/
def resolveInClass (st : VMState) : Nat → String → String → Option RMethod
  | 0, _, _ => none
  | fuel + 1, cname, mname =>
    match alFind st.CurrentClasses cname with
    | none => none
    | some c =>
      match alFind c.instanceMethods mname with
      | some m => some m
      | none =>
        match moduleInstanceMethod st c.includedModules.reverse mname with
        | some m => some m
        | none =>
          match c.superName with
          | some s => resolveInClass st fuel s mname
          | none => none

/-- Private resolution along the class chain (included modules' private
tables, most-recently-included first, then the superclass). -/
def resolvePrivInClass (st : VMState) : Nat → String → String → Option RMethod
  | 0, _, _ => none
  | fuel + 1, cname, mname =>
    match alFind st.CurrentClasses cname with
    | none => none
    | some c =>
      match modulePrivateMethod st c.includedModules.reverse mname with
      | some m => some m
      | none =>
        match c.superName with
        | some s => resolvePrivInClass st fuel s mname
        | none => none

/-- The value's own (singleton) method table, populated by `AddMethod`
(`main.to_s`, `main.require` in `NewVM`). -/
def ownMethod (st : VMState) (v : RValue) (mname : String) : Option RMethod :=
  match v with
  | .obj _ id => (alFind st.ownMethods id).bind fun tbl => alFind tbl mname
  | _ => none

/-- `target.Method(name)`: own table first, then the class chain. -/
def publicMethod (st : VMState) (v : RValue) (mname : String) : Option RMethod :=
  match ownMethod st v mname with
  | some m => some m
  | none => resolveInClass st 16 (classNameOf v) mname

/-- `target.PrivateMethod(name)`. -/
def privateMethodOf (st : VMState) (v : RValue) (mname : String) : Option RMethod :=
  resolvePrivInClass st 16 (classNameOf v) mname

/-! ## The statement evaluator

`executeWithContext` (vm.go:257-547) is a loop over the statement list that
threads `returnValue`/`returnErr` and registers a deferred `vm.stack.Shift()`
for every call frame it pushes; the deferred pops run when the *invocation*
returns.  `evalStep` is the body of the loop (the `switch` on the statement
kind); `StepRes.cont` continues with the next statement, `StepRes.ret` is an
early `return`, and `StepRes.stuck` models the undefined outcomes (out of
fuel, or a Go panic / nil-map dereference that aborts the process). -/

/-- Outcome of evaluating a single statement inside the loop. -/
inductive StepRes where
  | cont (rv : Option RValue) (re : Option RubyError) (pops : Nat) (st : VMState)
  | ret (rv : Option RValue) (re : Option RubyError) (pops : Nat) (st : VMState)
  | stuck

/-- The argument-evaluation loop of the `CallExpression` case
(vm.go:438-446): evaluate each argument in order; the first error is
returned immediately (`return nil, err`). -/
inductive ArgsOut where
  | ok (args : List (Option RValue)) (st : VMState)
  | fail (e : RubyError) (st : VMState)

def evalArgsA (sub : Exec) (context : RValue) :
    List Node → List (Option RValue) → VMState → Option ArgsOut
  | [], acc, st => some (.ok acc st)
  | a :: rest, acc, st =>
    match sub context [a] st with
    | none => none
    | some out =>
      match out.re with
      | some e => some (.fail e out.st)
      | none => evalArgsA sub context rest (acc ++ [out.rv]) out.st

/-- The inner rescue loop (vm.go:492-500): iterate the clause's declared
exception-class names; a name that textually equals `rubyErr.String()` (the
*original* raised error, fixed before the loops) runs the recovery body; a
successful body sets `matchingRescue` and breaks, a failing one leaves its
error in `err` and the iteration continues. -/
def rescueClassesA (sub : Exec) (context : RValue) (rubyErr : RubyError)
    (body : List Node) :
    List String → Option RubyError → VMState → Option (Bool × Option RubyError × VMState)
  | [], err, st => some (false, err, st)
  | cname :: rest, err, st =>
    if cname = errString rubyErr then
      match sub context body st with
      | none => none
      | some out =>
        match out.re with
        | none => some (true, none, out.st)
        | some e' => rescueClassesA sub context rubyErr body rest (some e') out.st
    else
      rescueClassesA sub context rubyErr body rest err st

/-- The outer rescue loop (vm.go:486-501): iterate the rescue clauses until
one matched and recovered. -/
def rescueLoopA (sub : Exec) (context : RValue) (rubyErr : RubyError) :
    List (List String × List Node) → Option RubyError → VMState →
    Option (Option RubyError × VMState)
  | [], err, st => some (err, st)
  | (classes, body) :: rest, err, st =>
    match rescueClassesA sub context rubyErr body classes err st with
    | none => none
    | some (matched, err', st') =>
      if matched then some (err', st')
      else rescueLoopA sub context rubyErr rest err' st'

/-- Continuation of the `CallExpression` case after the target value is
known (vm.go:424-454).  `usePrivateMethod` is set exactly when the call had
no explicit target.  The frame push (`vm.stack.Unshift`) increments the
pending-pop counter `pops`; the matching `defer vm.stack.Shift()` runs when
the whole `executeWithContext` invocation returns. -/
def evalCallResolved (sub : Exec) (mexec : MExec) (context : RValue)
    (funcName : String) (argNodes : List Node) (target : Option RValue)
    (usePrivateMethod : Bool) (pops : Nat) (st : VMState) : StepRes :=
  match target with
  | none =>
    let nilValue := RValue.obj "Nil" st.nextId
    let st' := { st with nextId := st.nextId + 1 }
    .ret none (some (.noMethodError funcName (displayString nilValue)
      (classNameOf nilValue) (stackString st'.stack))) pops st'
  | some tv =>
    let m₀ := publicMethod st tv funcName
    let m₁ := if m₀.isNone && usePrivateMethod then privateMethodOf st tv funcName
              else m₀
    match m₁ with
    | none =>
      -- Modelled from the spec: a resolution failure raises a "no such
      -- method" error carrying the receiver's display/class and backtrace.
      .ret none (some (.noMethodError funcName (displayString tv)
        (classNameOf tv) (stackString st.stack))) pops st
    | some m =>
      match evalArgsA sub context argNodes [] st with
      | none => .stuck
      | some (.fail e st') => .ret none (some e) pops st'
      | some (.ok args st') =>
        let st₂ := { st' with
          stack := ⟨m.nameOf, st'.currentFilename⟩ :: st'.stack }
        match mexec m tv args st₂ with
        | none => .stuck
        | some out =>
          match out.re with
          | some _ => .ret out.rv out.re (pops + 1) out.st
          | none => .cont out.rv out.re (pops + 1) out.st

/-- One iteration of the statement loop: the `switch statement.(type)` of
vm.go:263-543, case by case. -/
def evalStep (sub : Exec) (mexec : MExec) (context : RValue) (stmt : Node)
    (rv : Option RValue) (re : Option RubyError) (pops : Nat) (st : VMState) :
    StepRes :=
  match stmt with
  | .ifBlock condition body elseBody =>
    -- vm.go:264-280: the condition is inspected structurally, never
    -- evaluated.  NOTE: the source tests `Name == "nil"`, making a bare
    -- `nil` condition truthy and every other bare name falsy.
    let truthy :=
      match condition with
      | .boolean b => b
      | .bareReference n => n = "nil"
      | _ => true
    match sub context (if truthy then body else elseBody) st with
    | none => .stuck
    | some out => .cont out.rv out.re pops out.st
  | .moduleDecl name body =>
    -- vm.go:296-306: the module is registered *before* its body runs;
    -- returnValue becomes the module, a body error is recorded but the
    -- statement loop continues.
    let st₁ := { st with
      CurrentModules := alSet st.CurrentModules name ⟨name, [], [], []⟩ }
    match sub (.modulev name) body st₁ with
    | none => .stuck
    | some out =>
      .cont (some (.modulev name)) (if out.re.isSome then out.re else re) pops out.st
  | .classDecl name body =>
    -- vm.go:308-316: like moduleDecl, but returnValue is NOT set.
    -- `NewUserDefinedClass` is in the builtins; superclass Object is
    -- modelled from the spec's class contract.
    let st₁ := { st with
      CurrentClasses := alSet st.CurrentClasses name ⟨name, some "Object", [], []⟩ }
    match sub (.classv name) body st₁ with
    | none => .stuck
    | some out =>
      .cont rv (if out.re.isSome then out.re else re) pops out.st
  | .funcDecl name argNames selfTarget body =>
    -- vm.go:318-354.
    let m := RMethod.user name argNames body
    let mv := some (RValue.methodv m)
    if ((alFind st.ObjectSpace "main").getD none).any (identEq context) then
      match alFind st.CurrentModules "Kernel" with
      | none => .stuck
      | some k =>
        .cont mv re pops { st with
          CurrentModules := alSet st.CurrentModules "Kernel"
            { k with privateMethods := alSet k.privateMethods name m } }
    else
      match context with
      | .classv cname =>
        match alFind st.CurrentClasses cname with
        | none => .stuck
        | some c =>
          .cont mv re pops { st with
            CurrentClasses := alSet st.CurrentClasses cname
              { c with instanceMethods := alSet c.instanceMethods name m } }
      | .modulev mname =>
        match alFind st.CurrentModules mname with
        | none => .stuck
        | some md =>
          .cont mv re pops { st with
            CurrentModules := alSet st.CurrentModules mname
              (if selfTarget then
                { md with moduleMethods := alSet md.moduleMethods name m }
              else
                { md with instanceMethods := alSet md.instanceMethods name m }) }
      | _ => .stuck
  | .simpleString s => .cont (some (.strv s)) re pops st
  | .boolean b =>
    -- vm.go:360-365: `returnValue, returnErr = ...New(vm)` assigns BOTH,
    -- clearing any previously recorded error; New allocates an instance.
    .cont (some (.obj (if b then "True" else "False") st.nextId)) none pops
      { st with nextId := st.nextId + 1 }
  | .globalVariable name =>
    -- vm.go:366-367: a plain map read; a missing key yields Go nil, no error.
    .cont ((alFind st.CurrentGlobals name).getD none) re pops st
  | .constantInt n => .cont (some (.fixnum n)) re pops st
  | .symbol name =>
    -- vm.go:372-380: interning through CurrentSymbols.
    match alFind st.CurrentSymbols name with
    | none =>
      let v := RValue.symv name st.nextId
      .cont (some v) re pops { st with
        CurrentSymbols := alSet st.CurrentSymbols name v,
        nextId := st.nextId + 1 }
    | some v => .cont (some v) re pops st
  | .bareReference name =>
    -- vm.go:381-404: local scope, then ObjectSpace, then classes, then
    -- modules; on failure returnValue := nil and returnErr := NameError,
    -- and the statement loop CONTINUES (no early return).
    match retrieveL st.localVariableStack name with
    | some v => .cont v re pops st
    | none =>
      match alFind st.ObjectSpace name with
      | some v => .cont v re pops st
      | none =>
        match alFind st.CurrentClasses name with
        | some _ => .cont (some (.classv name)) re pops st
        | none =>
          match alFind st.CurrentModules name with
          | some _ => .cont (some (.modulev name)) re pops st
          | none =>
            .cont none (some (.nameError name (displayString context)
              (classNameOf context) (stackString st.stack))) pops st
  | .callExpression target funcName argNodes =>
    -- vm.go:405-454.
    match target with
    | some t =>
      match sub context [t] st with
      | none => .stuck
      | some out =>
        match out.re with
        | some _ => .ret none out.re pops out.st
        | none =>
          evalCallResolved sub mexec context funcName argNodes out.rv false
            pops out.st
    | none =>
      evalCallResolved sub mexec context funcName argNodes (some context) true
        pops st
  | .assignment lhs rhs =>
    -- vm.go:456-475.  NOTE: `returnValue, err := ...` uses `:=` inside the
    -- case block, so it declares a NEW returnValue shadowing the loop's;
    -- the construct's returnValue is left unchanged by an assignment.
    match sub context [rhs] st with
    | none => .stuck
    | some out =>
      match out.re with
      | some e => .ret none (some e) pops out.st
      | none =>
        match lhs with
        | .bareReference n =>
          .cont rv re pops { out.st with
            ObjectSpace := alSet out.st.ObjectSpace n out.rv }
        | .globalVariable n =>
          .cont rv re pops { out.st with
            CurrentGlobals := alSet out.st.CurrentGlobals n out.rv }
        | _ => .stuck
  | .beginBlock body rescues =>
    -- vm.go:479-506.  `rubyErr` is fixed to the error raised by the body;
    -- all clause matching compares against it, even after a failed
    -- recovery body replaced `err`.
    match sub context body st with
    | none => .stuck
    | some out =>
      match out.re with
      | none => .cont rv re pops out.st
      | some e =>
        match rescueLoopA sub context e rescues (some e) out.st with
        | none => .stuck
        | some r =>
          match r.1 with
          | some e₂ => .cont rv (some e₂) pops r.2
          | none => .cont rv re pops r.2

/-- The statement loop of `executeWithContext`, carrying
`returnValue`/`returnErr` and the number of deferred `vm.stack.Shift()`
calls registered so far. -/
def evalStmtsA (sub : Exec) (mexec : MExec) (context : RValue) :
    List Node → Option RValue → Option RubyError → Nat → VMState →
    Option (EvalOut × Nat)
  | [], rv, re, pops, st => some (⟨rv, re, st⟩, pops)
  | stmt :: rest, rv, re, pops, st =>
    match evalStep sub mexec context stmt rv re pops st with
    | .stuck => none
    | .ret rv' re' pops' st' => some (⟨rv', re', st'⟩, pops')
    | .cont rv' re' pops' st' => evalStmtsA sub mexec context rest rv' re' pops' st'

/-- The `require` search loop (vm.go:77-101), parameterised by the host
filesystem `fsv` (path to contents of readable files) and the recursive
`vm.Run`.  The captured `LOAD_PATH` array's members are taken from the
state.  The deferred restore of `vm.currentFilename` runs on return. -/
def requireLoop (fsv : String → Option String)
    (runf : String → VMState → Option EvalOut) (fileName : String) :
    List RValue → VMState → Option EvalOut
  | [], st =>
    some ⟨none, some (.loadError
      ("LoadError: cannot load such file -- " ++ fileName)
      (stackString st.stack)), st⟩
  | member :: rest, st =>
    match member with
    | .strv p =>
      let fullPath := p ++ "/" ++ fileName ++ ".rb"
      match fsv fullPath with
      | none => requireLoop fsv runf fileName rest st
      | some contents =>
        let originalName := st.currentFilename
        match runf contents { st with currentFilename := fullPath } with
        | none => none
        | some out =>
          let st₂ := { out.st with currentFilename := originalName }
          match out.re with
          | some e => some ⟨none, some e, st₂⟩
          | none =>
            some ⟨some (.obj "True" st₂.nextId), none,
              { st₂ with nextId := st₂.nextId + 1 }⟩
    | _ => none

/-- The `require` native method body (vm.go:70-105): "rubygems" is special
cased to a `False` instance with no error; otherwise the load path is
searched and a missing file raises a LoadError carrying the backtrace. -/
def requireImpl (fsv : String → Option String)
    (runf : String → VMState → Option EvalOut) (fileName : String)
    (st : VMState) : Option EvalOut :=
  if fileName = "rubygems" then
    some ⟨some (.obj "False" st.nextId), none, { st with nextId := st.nextId + 1 }⟩
  else
    requireLoop fsv runf fileName st.loadPathMembers st

/-- `method.Execute(target, args...)`.  A user method's closure
(vm.go:326-335) pushes a fresh local scope, stores the arguments, runs the
body with the receiver as context, and pops the scope on return. -/
def execMethodW (fsv : String → Option String) (exec : Exec)
    (runf : String → VMState → Option EvalOut) : MExec
  | .user _ argNames body, self, args, st =>
    let st₁ := { st with localVariableStack := [] :: st.localVariableStack }
    let st₂ := { st₁ with
      localVariableStack := bindArgs argNames args st₁.localVariableStack }
    match exec self body st₂ with
    | none => none
    | some out =>
      some { out with st := { out.st with
        localVariableStack := out.st.localVariableStack.drop 1 } }
  | .native .mainToS _, _, _, st => some ⟨some (.strv "main"), none, st⟩
  | .native .requireFn _, _, args, st =>
    match args with
    | some (.strv fileName) :: _ => requireImpl fsv runf fileName st
    | _ => none

/-- `vm.Run` (vm.go:240-255), parameterised by the parser: a parse failure
returns a ParseError; otherwise a frame naming `main` and a fresh local
scope are pushed, the statements are evaluated against the `main` object,
and both are popped (deferred) on return. -/
def runW (parsef : String → Option (List Node)) (exec : Exec)
    (input : String) (st : VMState) : Option EvalOut :=
  match parsef input with
  | none => some ⟨none, some (.parseError st.currentFilename), st⟩
  | some stmts =>
    match (alFind st.ObjectSpace "main").getD none with
    | none => none
    | some mainV =>
      let st₁ := { st with
        stack := ⟨"main", st.currentFilename⟩ :: st.stack,
        localVariableStack := [] :: st.localVariableStack }
      match exec mainV stmts st₁ with
      | none => none
      | some out =>
        some { out with st := { out.st with
          stack := out.st.stack.drop 1,
          localVariableStack := out.st.localVariableStack.drop 1 } }

/-- The fuel-indexed evaluator.  One unit of fuel is one nested
`executeWithContext` invocation; the wrapper runs the statement loop and
then performs the deferred `vm.stack.Shift()` pops registered by the call
frames this invocation pushed. -/
def executeWithContext (fsv : String → Option String)
    (parsef : String → Option (List Node)) : Nat → Exec
  | 0 => fun _ _ _ => none
  | fuel + 1 => fun context stmts st =>
    match evalStmtsA (executeWithContext fsv parsef fuel)
        (execMethodW fsv (executeWithContext fsv parsef fuel)
          (runW parsef (executeWithContext fsv parsef fuel)))
        context stmts none none 0 st with
    | none => none
    | some (out, pops) =>
      some { out with st := { out.st with stack := out.st.stack.drop pops } }

/-- The public `Run` entry point at a given fuel. -/
def runTop (fsv : String → Option String)
    (parsef : String → Option (List Node)) (fuel : Nat) (input : String)
    (st : VMState) : Option EvalOut :=
  runW parsef (executeWithContext fsv parsef fuel) input st

/-! ## Bootstrap (`NewVM` and `registerBuiltinClassesAndModules`)

The builtin classes are registered with empty method tables (their native
methods live outside `src/` and no claim calls them); the superclass and
inclusion wiring follows the spec's bootstrap steps: Kernel is included
into Object and Module, Class's superclass is Module, Object's is
BasicObject, BasicObject is the root, and the remaining builtin classes
descend from Object. -/

def builtinClassNames : List String :=
  ["IO", "Array", "Hash", "True", "File", "False", "Nil", "String",
   "Fixnum", "Float", "Symbol"]

def initialClasses : List (String × RClass) :=
  [("BasicObject", ⟨"BasicObject", none, [], []⟩),
   ("Object", ⟨"Object", some "BasicObject", ["Kernel"], []⟩),
   ("Class", ⟨"Class", some "Module", [], []⟩),
   ("Module", ⟨"Module", some "Object", ["Kernel"], []⟩)] ++
  builtinClassNames.map fun n => (n, ⟨n, some "Object", [], []⟩)

def initialModules : List (String × RModule) :=
  [("Comparable", ⟨"Comparable", [], [], []⟩),
   ("Kernel", ⟨"Kernel", [], [], []⟩),
   ("Process", ⟨"Process", [], [], []⟩)]

/-- Allocation ids fixed by `NewVM`'s allocation order: the `LOAD_PATH`
array, the `ARGV` array, then the `main` object. -/
def mainId : Nat := 2

/-- `NewVM(rubyHome, name)` (vm.go:47-109): registries, the `LOAD_PATH`
array holding `rubyHome/lib`, `ARGV`, and the `main` object carrying the
native `to_s` and `require` methods. -/
def newVM (rubyHome name : String) : VMState :=
  { currentFilename := name
    stack := []
    ObjectSpace :=
      [("ARGV", some (.obj "Array" 1)), ("main", some (.obj "Object" mainId))]
    CurrentGlobals :=
      [("LOAD_PATH", some (.obj "Array" 0)), (":", some (.obj "Array" 0))]
    CurrentSymbols := []
    CurrentClasses := initialClasses
    CurrentModules := initialModules
    localVariableStack := []
    ownMethods :=
      [(mainId, [("to_s", .native .mainToS "to_s"),
                 ("require", .native .requireFn "require")])]
    loadPathMembers := [.strv (rubyHome ++ "/lib")]
    nextId := 3 }

/-- The `main` context value, as allocated by `NewVM`. -/
def mainCtx : RValue := .obj "Object" mainId

/-- A host with no readable files. -/
def noFs : String → Option String := fun _ => none

/-- A parser accepting nothing. -/
def noParse : String → Option (List Node) := fun _ => none

/-- A `vm.Run` stub that never returns (used where `require` never loads). -/
def noRun : String → VMState → Option EvalOut := fun _ _ => none

/-- A freshly bootstrapped state. -/
def stW : VMState := newVM "home" "main.rb"

/-- A state whose current local scope binds `x`. -/
def stWLocal : VMState :=
  { stW with localVariableStack := [[("x", some (.fixnum 9))]] }

/-- A state in which the symbol `foo` has already been interned. -/
def stWSym : VMState :=
  { stW with CurrentSymbols := [("foo", .symv "foo" 3)], nextId := 4 }

/-! ## Stack-balance predicates

The spec's resource discipline is stack discipline: every push is matched
by a deferred pop on every exit path.  `PreservesE`/`PreservesM`/`PreservesR`
say that an evaluator / method executor / runner returns with the call
stack and local-variable stack at their entry depths.  `StepBal` is the
loop invariant: a single statement may leave extra frames on the call
stack, but exactly as many as it added to the pending `defer`red pop
count. -/

def PreservesE (sub : Exec) : Prop :=
  ∀ context stmts st out, sub context stmts st = some out →
    out.st.stack.length = st.stack.length ∧
    out.st.localVariableStack.length = st.localVariableStack.length

def PreservesM (mexec : MExec) : Prop :=
  ∀ m tv args st out, mexec m tv args st = some out →
    out.st.stack.length = st.stack.length ∧
    out.st.localVariableStack.length = st.localVariableStack.length

def PreservesR (runf : String → VMState → Option EvalOut) : Prop :=
  ∀ input st out, runf input st = some out →
    out.st.stack.length = st.stack.length ∧
    out.st.localVariableStack.length = st.localVariableStack.length

/-- The state carried by an argument-loop outcome. -/
def ArgsOut.stOf : ArgsOut → VMState
  | .ok _ st => st
  | .fail _ st => st

/-- Balance of a single statement step relative to the pending-pop count. -/
def StepBal (pops : Nat) (st : VMState) : StepRes → Prop
  | .cont _ _ pops' st' =>
      st'.stack.length + pops = st.stack.length + pops' ∧
      st'.localVariableStack.length = st.localVariableStack.length
  | .ret _ _ pops' st' =>
      st'.stack.length + pops = st.stack.length + pops' ∧
      st'.localVariableStack.length = st.localVariableStack.length
  | .stuck => True

/-! ## Helper lemmas -/

theorem alFind_alSet_self {κ α : Type} [DecidableEq κ] (l : List (κ × α))
    (k : κ) (v : α) : alFind (alSet l k v) k = some v := by
  induction l with
  | nil => simp [alSet, alFind]
  | cons p rest ih =>
    obtain ⟨k', v'⟩ := p
    by_cases h : k = k'
    · simp [alSet, h, alFind]
    · simp [alSet, h, alFind, ih]

theorem storeL_length (n : String) (v : Option RValue) (ls : List Scope) :
    (storeL n v ls).length = ls.length := by
  cases ls <;> simp [storeL, alSet]

theorem bindArgs_length (ns : List String) (vs : List (Option RValue))
    (ls : List Scope) : (bindArgs ns vs ls).length = ls.length := by
  induction ns generalizing vs ls with
  | nil => simp [bindArgs]
  | cons n ns ih =>
    cases vs with
    | nil => simp [bindArgs]
    | cons v vs => simp [bindArgs, ih, storeL_length]

theorem StepBal.congr {pops : Nat} {st' st : VMState} {r : StepRes}
    (h1 : st'.stack.length = st.stack.length)
    (h2 : st'.localVariableStack.length = st.localVariableStack.length)
    (h : StepBal pops st' r) : StepBal pops st r := by
  cases r <;> simp only [StepBal] at h ⊢ <;> omega

theorem evalArgsA_bal {sub : Exec} (hsub : PreservesE sub) (context : RValue) :
    ∀ nodes acc st r, evalArgsA sub context nodes acc st = some r →
      r.stOf.stack.length = st.stack.length ∧
      r.stOf.localVariableStack.length = st.localVariableStack.length := by
  intro nodes
  induction nodes with
  | nil =>
    intro acc st r h
    simp only [evalArgsA, Option.some.injEq] at h
    subst h
    exact ⟨rfl, rfl⟩
  | cons a rest ih =>
    intro acc st r h
    simp only [evalArgsA] at h
    split at h
    · exact Option.noConfusion h
    · rename_i out hs
      obtain ⟨hst1, hst2⟩ := hsub _ _ _ _ hs
      split at h
      · rename_i e hre
        simp only [Option.some.injEq] at h
        subst h
        exact ⟨hst1, hst2⟩
      · obtain ⟨h1, h2⟩ := ih _ _ _ h
        exact ⟨h1.trans hst1, h2.trans hst2⟩

theorem rescueClassesA_bal {sub : Exec} (hsub : PreservesE sub)
    (context : RValue) (rubyErr : RubyError) (body : List Node) :
    ∀ classes err st r,
      rescueClassesA sub context rubyErr body classes err st = some r →
      r.2.2.stack.length = st.stack.length ∧
      r.2.2.localVariableStack.length = st.localVariableStack.length := by
  intro classes
  induction classes with
  | nil =>
    intro err st r h
    simp only [rescueClassesA, Option.some.injEq] at h
    subst h
    exact ⟨rfl, rfl⟩
  | cons cname rest ih =>
    intro err st r h
    simp only [rescueClassesA] at h
    split at h
    · split at h
      · exact Option.noConfusion h
      · rename_i out hs
        obtain ⟨hst1, hst2⟩ := hsub _ _ _ _ hs
        split at h
        · simp only [Option.some.injEq] at h
          subst h
          exact ⟨hst1, hst2⟩
        · obtain ⟨h1, h2⟩ := ih _ _ _ h
          exact ⟨h1.trans hst1, h2.trans hst2⟩
    · exact ih _ _ _ h

theorem rescueLoopA_bal {sub : Exec} (hsub : PreservesE sub)
    (context : RValue) (rubyErr : RubyError) :
    ∀ rescues err st r,
      rescueLoopA sub context rubyErr rescues err st = some r →
      r.2.stack.length = st.stack.length ∧
      r.2.localVariableStack.length = st.localVariableStack.length := by
  intro rescues
  induction rescues with
  | nil =>
    intro err st r h
    simp only [rescueLoopA, Option.some.injEq] at h
    subst h
    exact ⟨rfl, rfl⟩
  | cons clause rest ih =>
    intro err st r h
    obtain ⟨classes, body⟩ := clause
    simp only [rescueLoopA] at h
    split at h
    · exact Option.noConfusion h
    · rename_i t hs
      obtain ⟨matched, err', st'⟩ := t
      obtain ⟨h1, h2⟩ := rescueClassesA_bal hsub context rubyErr body _ _ _ _ hs
      split at h
      · simp only [Option.some.injEq] at h
        subst h
        exact ⟨h1, h2⟩
      · obtain ⟨h3, h4⟩ := ih _ _ _ h
        exact ⟨h3.trans h1, h4.trans h2⟩

theorem evalCallResolved_bal {sub : Exec} {mexec : MExec}
    (hsub : PreservesE sub) (hm : PreservesM mexec) (context : RValue)
    (funcName : String) (argNodes : List Node) (target : Option RValue)
    (usePriv : Bool) (pops : Nat) (st : VMState) :
    StepBal pops st
      (evalCallResolved sub mexec context funcName argNodes target usePriv pops st) := by
  cases target with
  | none => simp [evalCallResolved, StepBal]
  | some tv =>
    simp only [evalCallResolved]
    split
    · simp [StepBal]
    · split
      · trivial
      · rename_i r hargs
        obtain ⟨ha1, ha2⟩ := evalArgsA_bal hsub context _ _ _ _ hargs
        simp only [ArgsOut.stOf] at ha1 ha2
        simp only [StepBal]
        omega
      · rename_i args st' hargs
        obtain ⟨ha1, ha2⟩ := evalArgsA_bal hsub context _ _ _ _ hargs
        simp only [ArgsOut.stOf] at ha1 ha2
        split
        · trivial
        · rename_i out hme
          obtain ⟨hm1, hm2⟩ := hm _ _ _ _ _ hme
          dsimp only at hm1 hm2
          simp only [List.length_cons] at hm1
          split <;> simp only [StepBal] <;> omega

theorem evalStep_bal {sub : Exec} {mexec : MExec}
    (hsub : PreservesE sub) (hm : PreservesM mexec) (context : RValue)
    (stmt : Node) (rv : Option RValue) (re : Option RubyError) (pops : Nat)
    (st : VMState) :
    StepBal pops st (evalStep sub mexec context stmt rv re pops st) := by
  cases stmt with
  | ifBlock condition body elseBody =>
    simp only [evalStep]
    split
    · trivial
    · rename_i out hs
      obtain ⟨h1, h2⟩ := hsub _ _ _ _ hs
      simp only [StepBal]
      omega
  | moduleDecl name body =>
    simp only [evalStep]
    split
    · trivial
    · rename_i out hs
      obtain ⟨h1, h2⟩ := hsub _ _ _ _ hs
      dsimp only at h1 h2
      simp only [StepBal]
      omega
  | classDecl name body =>
    simp only [evalStep]
    split
    · trivial
    · rename_i out hs
      obtain ⟨h1, h2⟩ := hsub _ _ _ _ hs
      dsimp only at h1 h2
      simp only [StepBal]
      omega
  | funcDecl name argNames selfTarget body =>
    simp only [evalStep]
    split
    · split
      · trivial
      · simp [StepBal]
    · split
      · split
        · trivial
        · simp [StepBal]
      · split
        · trivial
        · simp [StepBal]
      · trivial
  | simpleString s => simp [evalStep, StepBal]
  | boolean b => simp [evalStep, StepBal]
  | globalVariable name => simp [evalStep, StepBal]
  | constantInt n => simp [evalStep, StepBal]
  | symbol name =>
    simp only [evalStep]
    split <;> simp [StepBal]
  | bareReference name =>
    simp only [evalStep]
    split
    · simp [StepBal]
    · split
      · simp [StepBal]
      · split
        · simp [StepBal]
        · split <;> simp [StepBal]
  | callExpression target funcName argNodes =>
    cases target with
    | some t =>
      simp only [evalStep]
      split
      · trivial
      · rename_i out hs
        obtain ⟨h1, h2⟩ := hsub _ _ _ _ hs
        split
        · simp only [StepBal]
          omega
        · exact StepBal.congr h1 h2
            (evalCallResolved_bal hsub hm context funcName argNodes out.rv false pops out.st)
    | none =>
      exact evalCallResolved_bal hsub hm context funcName argNodes (some context) true pops st
  | assignment lhs rhs =>
    simp only [evalStep]
    split
    · trivial
    · rename_i out hs
      obtain ⟨h1, h2⟩ := hsub _ _ _ _ hs
      split
      · simp only [StepBal]
        omega
      · split
        · simp only [StepBal]
          omega
        · simp only [StepBal]
          omega
        · trivial
  | beginBlock body rescues =>
    simp only [evalStep]
    split
    · trivial
    · rename_i out hs
      obtain ⟨h1, h2⟩ := hsub _ _ _ _ hs
      split
      · simp only [StepBal]
        omega
      · rename_i e hre
        split
        · trivial
        · rename_i r hloop
          obtain ⟨h3, h4⟩ := rescueLoopA_bal hsub context e _ _ _ _ hloop
          split <;> simp only [StepBal] <;> omega

theorem evalStmtsA_bal {sub : Exec} {mexec : MExec}
    (hsub : PreservesE sub) (hm : PreservesM mexec) (context : RValue) :
    ∀ stmts rv re pops st out pops₂,
      evalStmtsA sub mexec context stmts rv re pops st = some (out, pops₂) →
      out.st.stack.length + pops = st.stack.length + pops₂ ∧
      out.st.localVariableStack.length = st.localVariableStack.length := by
  intro stmts
  induction stmts with
  | nil =>
    intro rv re pops st out pops₂ h
    simp only [evalStmtsA, Option.some.injEq, Prod.mk.injEq] at h
    obtain ⟨h1, h2⟩ := h
    subst h1; subst h2
    exact ⟨rfl, rfl⟩
  | cons stmt rest ih =>
    intro rv re pops st out pops₂ h
    have hstep := evalStep_bal hsub hm context stmt rv re pops st
    simp only [evalStmtsA] at h
    split at h
    · exact Option.noConfusion h
    · rename_i rv' re' pops' st' hr
      rw [hr] at hstep
      simp only [StepBal] at hstep
      simp only [Option.some.injEq, Prod.mk.injEq] at h
      obtain ⟨h1, h2⟩ := h
      subst h1; subst h2
      refine ⟨?_, hstep.2⟩
      show st'.stack.length + pops = st.stack.length + pops'
      omega
    · rename_i rv' re' pops' st' hr
      rw [hr] at hstep
      simp only [StepBal] at hstep
      obtain ⟨h3, h4⟩ := ih _ _ _ _ _ _ h
      exact ⟨by omega, h4.trans hstep.2⟩

theorem requireLoop_bal {fsv : String → Option String}
    {runf : String → VMState → Option EvalOut} (hr : PreservesR runf)
    (fileName : String) :
    ∀ members st out, requireLoop fsv runf fileName members st = some out →
      out.st.stack.length = st.stack.length ∧
      out.st.localVariableStack.length = st.localVariableStack.length := by
  intro members
  induction members with
  | nil =>
    intro st out h
    simp only [requireLoop, Option.some.injEq] at h
    subst h
    exact ⟨rfl, rfl⟩
  | cons member rest ih =>
    intro st out h
    simp only [requireLoop] at h
    split at h
    · split at h
      · exact ih _ _ h
      · split at h
        · exact Option.noConfusion h
        · rename_i contents hfs out' hrun
          obtain ⟨h1, h2⟩ := hr _ _ _ hrun
          dsimp only at h1 h2
          split at h <;>
            (simp only [Option.some.injEq] at h; subst h; exact ⟨h1, h2⟩)
    · exact Option.noConfusion h

theorem requireImpl_bal {fsv : String → Option String}
    {runf : String → VMState → Option EvalOut} (hr : PreservesR runf)
    (fileName : String) (st : VMState) (out : EvalOut)
    (h : requireImpl fsv runf fileName st = some out) :
    out.st.stack.length = st.stack.length ∧
    out.st.localVariableStack.length = st.localVariableStack.length := by
  simp only [requireImpl] at h
  split at h
  · simp only [Option.some.injEq] at h
    subst h
    exact ⟨rfl, rfl⟩
  · exact requireLoop_bal hr fileName _ _ _ h

theorem execMethodW_bal {fsv : String → Option String} {exec : Exec}
    {runf : String → VMState → Option EvalOut} (hexec : PreservesE exec)
    (hr : PreservesR runf) : PreservesM (execMethodW fsv exec runf) := by
  intro m tv args st out h
  cases m with
  | user name argNames body =>
    simp only [execMethodW] at h
    split at h
    · exact Option.noConfusion h
    · rename_i out' hrun
      obtain ⟨h1, h2⟩ := hexec _ _ _ _ hrun
      simp only [bindArgs_length, List.length_cons] at h1 h2
      simp only [Option.some.injEq] at h
      subst h
      simp only [List.length_drop]
      omega
  | native impl name =>
    cases impl with
    | mainToS =>
      simp only [execMethodW, Option.some.injEq] at h
      subst h
      exact ⟨rfl, rfl⟩
    | requireFn =>
      simp only [execMethodW] at h
      split at h
      · exact requireImpl_bal hr _ _ _ h
      · exact Option.noConfusion h

theorem runW_bal {parsef : String → Option (List Node)} {exec : Exec}
    (hexec : PreservesE exec) : PreservesR (runW parsef exec) := by
  intro input st out h
  simp only [runW] at h
  split at h
  · simp only [Option.some.injEq] at h
    subst h
    exact ⟨rfl, rfl⟩
  · split at h
    · exact Option.noConfusion h
    · rename_i mainV hmain
      split at h
      · exact Option.noConfusion h
      · rename_i out' hrun
        obtain ⟨h1, h2⟩ := hexec _ _ _ _ hrun
        dsimp only at h1 h2
        simp only [List.length_cons] at h1 h2
        simp only [Option.some.injEq] at h
        subst h
        simp only [List.length_drop]
        omega

/-- Every invocation of the evaluator restores both stack depths: the
deferred frame pops exactly cancel the frames pushed during the statement
loop, and every local-scope push inside is matched by its own deferred
pop. -/
theorem exec_preserves (fsv : String → Option String)
    (parsef : String → Option (List Node)) :
    ∀ fuel, PreservesE (executeWithContext fsv parsef fuel) := by
  intro fuel
  induction fuel with
  | zero => intro context stmts st out h; exact Option.noConfusion h
  | succ f ih =>
    intro context stmts st out h
    simp only [executeWithContext] at h
    split at h
    · exact Option.noConfusion h
    · rename_i out' pops hloop
      obtain ⟨h1, h2⟩ :=
        evalStmtsA_bal ih (execMethodW_bal ih (runW_bal ih)) context
          _ _ _ _ _ _ _ hloop
      simp only [Option.some.injEq] at h
      subst h
      simp only [List.length_drop]
      omega

/-! ## Claims -/

/-- C1: the claim states that a bare-name if-condition yields false exactly
when the name is `nil` (and any other bare name yields true).  The source
(vm.go:271) tests `Name == "nil"`, which is the inverse: `if nil then 1
else 2` evaluates the then-body and yields 1, while `if x then 1 else 2`
evaluates the else-body and yields 2. -/
theorem c1_bare_nil_condition_inverted :
    (executeWithContext noFs noParse 3 mainCtx
      [Node.ifBlock (Node.bareReference "nil")
        [Node.constantInt 1] [Node.constantInt 2]] stW).map
      (fun o => (o.rv, o.re)) = some (some (.fixnum 1), none) ∧
    (executeWithContext noFs noParse 3 mainCtx
      [Node.ifBlock (Node.bareReference "x")
        [Node.constantInt 1] [Node.constantInt 2]] stW).map
      (fun o => (o.rv, o.re)) = some (some (.fixnum 2), none) :=
  ⟨rfl, rfl⟩

/-- C4: the claim states that a statement sequence ending in an assignment
yields the assigned right-hand-side value.  In the source's Assignment case
(vm.go:458) `returnValue, err := ...` re-declares `returnValue` inside the
case block, shadowing the loop's `returnValue`; evaluating `x = 5` as the
whole program stores 5 under `x` in Object Space but leaves the construct's
result at its previous value (Go `nil` here), not 5. -/
theorem c4_assignment_result_shadowed :
    (executeWithContext noFs noParse 3 mainCtx
      [Node.assignment (Node.bareReference "x") (Node.constantInt 5)] stW).map
      (fun o => (o.rv, o.re, alFind o.st.ObjectSpace "x")) =
      some (none, none, some (some (.fixnum 5))) :=
  rfl

/-- C10: evaluating a `$`-prefixed global-variable read for a name that was
never assigned yields Go `nil` as the value and no error; unlike a
bare-name read it never produces a name-undefined error (vm.go:366-367). -/
theorem c10_undefined_global_reads_nil
    (fsv : String → Option String) (parsef : String → Option (List Node))
    (f : Nat) (context : RValue) (st : VMState) (name : String)
    (h : alFind st.CurrentGlobals name = none) :
    (executeWithContext fsv parsef (f + 1) context
      [Node.globalVariable name] st).map (fun o => (o.rv, o.re)) =
      some (none, none) := by
  simp [executeWithContext, evalStmtsA, evalStep, h]

/-- Witness for C10 at the bootstrap state and the name `undef`. -/
theorem c10_undefined_global_reads_nil_witness :
    (executeWithContext noFs noParse 1 mainCtx
      [Node.globalVariable "undef"] stW).map (fun o => (o.rv, o.re)) =
      some (none, none) :=
  c10_undefined_global_reads_nil noFs noParse 0 mainCtx stW "undef" rfl

/-- C3 counterexample: in the program `def foo; 1; end; foo; qux`, the
NameError raised by the sibling statement `qux` — evaluated after the call
`foo` has already returned — carries a backtrace that still contains the
frame `foo`, because the frame's pop is deferred to the return of the whole
statement-sequence evaluation, not of the call.  Under the claim the
backtrace would be empty here.  The final depth 0 shows the deferred pop
did run at sequence return. -/
theorem c3_counterexample_frame_remains_during_siblings :
    (executeWithContext noFs noParse 5 mainCtx
      [Node.funcDecl "foo" [] false [Node.constantInt 1],
       Node.callExpression none "foo" [],
       Node.bareReference "qux"] stW).map
      (fun o => (o.re, o.st.stack.length)) =
      some (some (.nameError "qux" (displayString mainCtx) "Object"
        (stackString [⟨"foo", "main.rb"⟩])), 0) :=
  rfl

/-- C3 (amended): the frame pushed for a method call is popped
unconditionally by the time the evaluation of the statement sequence
containing the call returns, on success and on error — the call stack depth
after any evaluator invocation equals the depth before it (though the frame
does remain on the stack while sibling statements after the call run). -/
theorem c3_frame_popped_at_sequence_return
    (fsv : String → Option String) (parsef : String → Option (List Node))
    (fuel : Nat) (context : RValue) (stmts : List Node) (st : VMState)
    (n : Nat)
    (h : (executeWithContext fsv parsef fuel context stmts st).map
        (fun o => o.st.stack.length) = some n) :
    n = st.stack.length := by
  cases he : executeWithContext fsv parsef fuel context stmts st with
  | none => rw [he] at h; exact Option.noConfusion h
  | some out =>
    rw [he] at h
    simp only [Option.map_some', Option.some.injEq] at h
    subst h
    exact (exec_preserves fsv parsef fuel context stmts st out he).1

/-- Witness for the amended C3: the `def foo; 1; end; foo; qux` program
returns with the call stack at its entry depth 0. -/
theorem c3_frame_popped_at_sequence_return_witness :
    (0 : Nat) = stW.stack.length :=
  c3_frame_popped_at_sequence_return noFs noParse 5 mainCtx
    [Node.funcDecl "foo" [] false [Node.constantInt 1],
     Node.callExpression none "foo" [],
     Node.bareReference "qux"] stW 0 rfl

/-- C5: any `Run`, successful or erroring (including a parse failure),
returns with the Call Stack and the Local Variable Stack at their entry
depths. -/
theorem c5_run_stack_balance
    (fsv : String → Option String) (parsef : String → Option (List Node))
    (fuel : Nat) (input : String) (st : VMState) (p q : Nat)
    (h : (runTop fsv parsef fuel input st).map
        (fun o => (o.st.stack.length, o.st.localVariableStack.length)) =
        some (p, q)) :
    p = st.stack.length ∧ q = st.localVariableStack.length := by
  cases he : runTop fsv parsef fuel input st with
  | none => rw [he] at h; exact Option.noConfusion h
  | some out =>
    rw [he] at h
    simp only [Option.map_some', Option.some.injEq, Prod.mk.injEq] at h
    obtain ⟨h1, h2⟩ := h
    have hb := runW_bal (exec_preserves fsv parsef fuel) input st out he
    exact ⟨h1 ▸ hb.1, h2 ▸ hb.2⟩

/-- Witness for C5: a run that declares and calls a method returns with
both stacks at depth 0. -/
theorem c5_run_stack_balance_witness :
    (0 : Nat) = stW.stack.length ∧ (0 : Nat) = stW.localVariableStack.length :=
  c5_run_stack_balance noFs
    (fun _ => some [Node.funcDecl "foo" [] false [Node.constantInt 1],
      Node.callExpression none "foo" []]) 6 "src" stW 0 0 rfl

/-- C6: a bare-name read resolves in the strict order current local scope,
then Object Space, then the Class registry, then the Module registry; an
earlier hit shadows all later registries regardless of their contents, and
when none match the read fails with a name-undefined error carrying the
context's display name, the context's class name, and the current
backtrace. -/
theorem c6_bare_name_resolution_order
    (fsv : String → Option String) (parsef : String → Option (List Node)) :
    (∀ f context st name v,
      retrieveL st.localVariableStack name = some v →
      (executeWithContext fsv parsef (f + 1) context
        [Node.bareReference name] st).map (fun o => (o.rv, o.re)) =
        some (v, none)) ∧
    (∀ f context st name v,
      retrieveL st.localVariableStack name = none →
      alFind st.ObjectSpace name = some v →
      (executeWithContext fsv parsef (f + 1) context
        [Node.bareReference name] st).map (fun o => (o.rv, o.re)) =
        some (v, none)) ∧
    (∀ f context st name c,
      retrieveL st.localVariableStack name = none →
      alFind st.ObjectSpace name = none →
      alFind st.CurrentClasses name = some c →
      (executeWithContext fsv parsef (f + 1) context
        [Node.bareReference name] st).map (fun o => (o.rv, o.re)) =
        some (some (.classv name), none)) ∧
    (∀ f context st name m,
      retrieveL st.localVariableStack name = none →
      alFind st.ObjectSpace name = none →
      alFind st.CurrentClasses name = none →
      alFind st.CurrentModules name = some m →
      (executeWithContext fsv parsef (f + 1) context
        [Node.bareReference name] st).map (fun o => (o.rv, o.re)) =
        some (some (.modulev name), none)) ∧
    (∀ f context st name,
      retrieveL st.localVariableStack name = none →
      alFind st.ObjectSpace name = none →
      alFind st.CurrentClasses name = none →
      alFind st.CurrentModules name = none →
      (executeWithContext fsv parsef (f + 1) context
        [Node.bareReference name] st).map (fun o => (o.rv, o.re)) =
        some (none, some (.nameError name (displayString context)
          (classNameOf context) (stackString st.stack)))) := by
  refine ⟨?_, ?_, ?_, ?_, ?_⟩
  · intro f context st name v h1
    simp [executeWithContext, evalStmtsA, evalStep, h1]
  · intro f context st name v h1 h2
    simp [executeWithContext, evalStmtsA, evalStep, h1, h2]
  · intro f context st name c h1 h2 h3
    simp [executeWithContext, evalStmtsA, evalStep, h1, h2, h3]
  · intro f context st name m h1 h2 h3 h4
    simp [executeWithContext, evalStmtsA, evalStep, h1, h2, h3, h4]
  · intro f context st name h1 h2 h3 h4
    simp [executeWithContext, evalStmtsA, evalStep, h1, h2, h3, h4]

/-- Witness for C6: a local binding for `x`, the Object Space entry `ARGV`,
the class `Object`, the module `Kernel`, and the undefined name `qux`, all
at bootstrap states. -/
theorem c6_bare_name_resolution_order_witness :
    (executeWithContext noFs noParse 1 mainCtx
      [Node.bareReference "x"] stWLocal).map (fun o => (o.rv, o.re)) =
      some (some (.fixnum 9), none) ∧
    (executeWithContext noFs noParse 1 mainCtx
      [Node.bareReference "ARGV"] stW).map (fun o => (o.rv, o.re)) =
      some (some (.obj "Array" 1), none) ∧
    (executeWithContext noFs noParse 1 mainCtx
      [Node.bareReference "Object"] stW).map (fun o => (o.rv, o.re)) =
      some (some (.classv "Object"), none) ∧
    (executeWithContext noFs noParse 1 mainCtx
      [Node.bareReference "Kernel"] stW).map (fun o => (o.rv, o.re)) =
      some (some (.modulev "Kernel"), none) ∧
    (executeWithContext noFs noParse 1 mainCtx
      [Node.bareReference "qux"] stW).map (fun o => (o.rv, o.re)) =
      some (none, some (.nameError "qux" (displayString mainCtx) "Object"
        (stackString stW.stack))) :=
  ⟨(c6_bare_name_resolution_order noFs noParse).1 0 mainCtx stWLocal "x"
      (some (.fixnum 9)) rfl,
   (c6_bare_name_resolution_order noFs noParse).2.1 0 mainCtx stW "ARGV"
      (some (.obj "Array" 1)) rfl rfl,
   (c6_bare_name_resolution_order noFs noParse).2.2.1 0 mainCtx stW "Object"
      ⟨"Object", some "BasicObject", ["Kernel"], []⟩ rfl rfl rfl,
   (c6_bare_name_resolution_order noFs noParse).2.2.2.1 0 mainCtx stW "Kernel"
      ⟨"Kernel", [], [], []⟩ rfl rfl rfl rfl,
   (c6_bare_name_resolution_order noFs noParse).2.2.2.2 0 mainCtx stW "qux"
      rfl rfl rfl rfl⟩

/-- C7: symbol literals are interned in `CurrentSymbols`: the first
evaluation of `:name` allocates a fresh Symbol (consuming an allocation id)
and caches it; any later evaluation with the same name returns exactly the
cached value, leaves the symbol table unchanged, and allocates nothing. -/
theorem c7_symbol_interning
    (fsv : String → Option String) (parsef : String → Option (List Node)) :
    (∀ f context st name,
      alFind st.CurrentSymbols name = none →
      (executeWithContext fsv parsef (f + 1) context [Node.symbol name] st).map
        (fun o => (o.rv, alFind o.st.CurrentSymbols name, o.st.nextId)) =
        some (some (.symv name st.nextId), some (.symv name st.nextId),
          st.nextId + 1)) ∧
    (∀ f context st name v,
      alFind st.CurrentSymbols name = some v →
      (executeWithContext fsv parsef (f + 1) context [Node.symbol name] st).map
        (fun o => (o.rv, o.st.CurrentSymbols, o.st.nextId)) =
        some (some v, st.CurrentSymbols, st.nextId)) := by
  constructor
  · intro f context st name h
    simp [executeWithContext, evalStmtsA, evalStep, h, alFind_alSet_self]
  · intro f context st name v h
    simp [executeWithContext, evalStmtsA, evalStep, h]

/-- Witness for C7: interning `:foo` at the bootstrap state, then
re-requesting it in the state where it is already cached. -/
theorem c7_symbol_interning_witness :
    (executeWithContext noFs noParse 1 mainCtx [Node.symbol "foo"] stW).map
      (fun o => (o.rv, alFind o.st.CurrentSymbols "foo", o.st.nextId)) =
      some (some (.symv "foo" 3), some (.symv "foo" 3), 4) ∧
    (executeWithContext noFs noParse 1 mainCtx [Node.symbol "foo"] stWSym).map
      (fun o => (o.rv, o.st.CurrentSymbols, o.st.nextId)) =
      some (some (.symv "foo" 3), stWSym.CurrentSymbols, 4) :=
  ⟨(c7_symbol_interning noFs noParse).1 0 mainCtx stW "foo" rfl,
   (c7_symbol_interning noFs noParse).2 0 mainCtx stWSym "foo"
     (.symv "foo" 3) rfl⟩

/-- C2: in a begin/rescue whose body raises `e`, when the first clause's
declared class name equals `e`'s display string and its recovery body
itself raises a different error `e'`, iteration continues and the second
clause is still matched against the *original* error `e` (its class name
equals `errString e`, not `errString e'`); its successful body handles the
construct, which therefore yields no error. -/
theorem c2_rescue_matches_original_error
    (fsv : String → Option String) (parsef : String → Option (List Node))
    (f : Nat) (context : RValue) (st : VMState) (protBody b1 b2 : List Node)
    (e e' : RubyError) (out0 out1 out2 : EvalOut)
    (h0 : executeWithContext fsv parsef f context protBody st = some out0)
    (hre0 : out0.re = some e)
    (h1 : executeWithContext fsv parsef f context b1 out0.st = some out1)
    (hre1 : out1.re = some e')
    (_hne : errString e' ≠ errString e)
    (h2 : executeWithContext fsv parsef f context b2 out1.st = some out2)
    (hre2 : out2.re = none) :
    (executeWithContext fsv parsef (f + 1) context
      [Node.beginBlock protBody [([errString e], b1), ([errString e], b2)]]
      st).map (fun o => o.re) = some none := by
  simp [executeWithContext, evalStmtsA, evalStep, rescueLoopA, rescueClassesA,
    h0, hre0, h1, hre1, h2, hre2]

/-- Witness for C2: the body raises the NameError for `q1`; the first
clause matches its display string but its body raises the NameError for
`q2`; the second clause, declared with the display string of the original
`q1` error, still matches and recovers with `7`. -/
theorem c2_rescue_matches_original_error_witness :
    (executeWithContext noFs noParse 3 mainCtx
      [Node.beginBlock [Node.bareReference "q1"]
        [(["NameError: undefined local variable or method q1"],
            [Node.bareReference "q2"]),
         (["NameError: undefined local variable or method q1"],
            [Node.constantInt 7])]] stW).map (fun o => o.re) = some none :=
  c2_rescue_matches_original_error noFs noParse 2 mainCtx stW
    [Node.bareReference "q1"] [Node.bareReference "q2"] [Node.constantInt 7]
    (.nameError "q1" (displayString mainCtx) "Object" (stackString stW.stack))
    (.nameError "q2" (displayString mainCtx) "Object" (stackString stW.stack))
    _ _ _ rfl rfl rfl rfl (by decide) rfl rfl

/-- C8 counterexample: evaluating `module Mm; Mm; end` succeeds with no
error: the body's bare-name read of `Mm` resolves through the Module
registry, so the module was registered *before* its body ran; under the
claim (register only after the body) the body would have raised a
NameError for `Mm`, which would have been recorded as the construct's
error. -/
theorem c8_counterexample_module_registered_before_body :
    (executeWithContext noFs noParse 5 mainCtx
      [Node.moduleDecl "Mm" [Node.bareReference "Mm"]] stW).map
      (fun o => (o.rv, o.re, (alFind o.st.CurrentModules "Mm").isSome)) =
      some (some (.modulev "Mm"), none, true) :=
  rfl

/-- C8 (amended): a module/class declaration creates the Module/Class,
registers it in the corresponding registry, and only then evaluates its
body with the new Module/Class as the context — so a body that reads the
declared name resolves it (no error) and the registration is present
afterwards. -/
theorem c8_module_class_registered_before_body
    (fsv : String → Option String) (parsef : String → Option (List Node)) :
    (∀ f context st name,
      retrieveL st.localVariableStack name = none →
      alFind st.ObjectSpace name = none →
      alFind st.CurrentClasses name = none →
      (executeWithContext fsv parsef (f + 2) context
        [Node.moduleDecl name [Node.bareReference name]] st).map
        (fun o => (o.rv, o.re, (alFind o.st.CurrentModules name).isSome)) =
        some (some (.modulev name), none, true)) ∧
    (∀ f context st name,
      retrieveL st.localVariableStack name = none →
      alFind st.ObjectSpace name = none →
      (executeWithContext fsv parsef (f + 2) context
        [Node.classDecl name [Node.bareReference name]] st).map
        (fun o => (o.re, (alFind o.st.CurrentClasses name).isSome)) =
        some (none, true)) := by
  constructor
  · intro f context st name h1 h2 h3
    simp [executeWithContext, evalStmtsA, evalStep, h1, h2, h3,
      alFind_alSet_self]
  · intro f context st name h1 h2
    simp [executeWithContext, evalStmtsA, evalStep, h1, h2,
      alFind_alSet_self]

/-- Witness for the amended C8 at the bootstrap state with the fresh names
`Mm` and `Cc`. -/
theorem c8_module_class_registered_before_body_witness :
    (executeWithContext noFs noParse 2 mainCtx
      [Node.moduleDecl "Mm" [Node.bareReference "Mm"]] stW).map
      (fun o => (o.rv, o.re, (alFind o.st.CurrentModules "Mm").isSome)) =
      some (some (.modulev "Mm"), none, true) ∧
    (executeWithContext noFs noParse 2 mainCtx
      [Node.classDecl "Cc" [Node.bareReference "Cc"]] stW).map
      (fun o => (o.re, (alFind o.st.CurrentClasses "Cc").isSome)) =
      some (none, true) :=
  ⟨(c8_module_class_registered_before_body noFs noParse).1 0 mainCtx stW "Mm"
      rfl rfl rfl,
   (c8_module_class_registered_before_body noFs noParse).2 0 mainCtx stW "Cc"
      rfl rfl⟩

/-- The `require` search loop returns the LoadError when every load-path
member is a string path at which the host has no readable file. -/
theorem requireLoop_notfound (fsv : String → Option String)
    (runf : String → VMState → Option EvalOut) (fileName : String) :
    ∀ members st,
      (∀ member ∈ members, ∃ p, member = RValue.strv p ∧
        fsv (p ++ "/" ++ fileName ++ ".rb") = none) →
      requireLoop fsv runf fileName members st =
        some ⟨none, some (.loadError
          ("LoadError: cannot load such file -- " ++ fileName)
          (stackString st.stack)), st⟩ := by
  intro members
  induction members with
  | nil => intro st _; rfl
  | cons member rest ih =>
    intro st h
    obtain ⟨p, hp, hfs⟩ := h member (List.mem_cons_self _ _)
    subst hp
    simp only [requireLoop, hfs]
    exact ih st fun m hm => h m (List.mem_cons_of_mem _ hm)

/-- C9: calling the `require` builtin with a file name that is found (after
appending `.rb`) in no load-path directory raises a LoadError whose message
mentions the requested file name and which carries the current backtrace;
the special name `rubygems` is instead a no-op success raising no error. -/
theorem c9_require_missing_and_rubygems (fsv : String → Option String)
    (runf : String → VMState → Option EvalOut) :
    (∀ fileName st,
      fileName ≠ "rubygems" →
      (∀ member ∈ st.loadPathMembers, ∃ p, member = RValue.strv p ∧
        fsv (p ++ "/" ++ fileName ++ ".rb") = none) →
      requireImpl fsv runf fileName st =
        some ⟨none, some (.loadError
          ("LoadError: cannot load such file -- " ++ fileName)
          (stackString st.stack)), st⟩ ∧
      ∃ pre post,
        "LoadError: cannot load such file -- " ++ fileName =
          pre ++ fileName ++ post) ∧
    (∀ st, requireImpl fsv runf "rubygems" st =
      some ⟨some (.obj "False" st.nextId), none,
        { st with nextId := st.nextId + 1 }⟩) := by
  constructor
  · intro fileName st hname hmiss
    refine ⟨?_, "LoadError: cannot load such file -- ", "", by simp⟩
    simp only [requireImpl, if_neg hname]
    exact requireLoop_notfound fsv runf fileName st.loadPathMembers st hmiss
  · intro st
    rfl

/-- Witness for C9: `require "missing_file"` against the bootstrap load
path (one directory, empty host filesystem) and `require "rubygems"`. -/
theorem c9_require_missing_and_rubygems_witness :
    (requireImpl noFs noRun "missing_file" stW =
      some ⟨none, some (.loadError
        "LoadError: cannot load such file -- missing_file"
        (stackString stW.stack)), stW⟩ ∧
     ∃ pre post, "LoadError: cannot load such file -- missing_file" =
        pre ++ "missing_file" ++ post) ∧
    requireImpl noFs noRun "rubygems" stW =
      some ⟨some (.obj "False" 3), none, { stW with nextId := 4 }⟩ :=
  ⟨(c9_require_missing_and_rubygems noFs noRun).1 "missing_file" stW
      (by decide)
      (by
        intro member hm
        refine ⟨"home" ++ "/lib", ?_, rfl⟩
        have hm' : member ∈ [RValue.strv ("home" ++ "/lib")] := hm
        simpa using hm'),
   (c9_require_missing_and_rubygems noFs noRun).2 stW⟩

end Grubby
